import Mathlib

/-!
Verification of the `Address` type of `casper-erc20` (`src/erc20/src/address.rs`).

`Address` is a two-variant tagged union over Casper's `AccountHash` and
`ContractPackageHash` identifiers, with accessors, string rendering, conversion
to the external storage `Key` type, and binary (de)serialization that delegates
to the external `bytesrepr` encoding of `Key`.

The external `casper_types` collaborators (`AccountHash`, `ContractPackageHash`,
`Key` and its `bytesrepr` encoder/decoder/length functions, `ApiError`) are not
part of this repository's sources; they are modelled here from the spec's
description of the external key-encoding contract (a discriminated key type
whose variants include account-key and hash-key among others, with a stable
tag-prefixed binary format). The definitions translated from `address.rs`
itself are `Address`, its accessors, `ToString`, `From<Address> for Key`,
`ToBytes for Address` and `FromBytes for Address`.
-/

deriving instance DecidableEq for Except

namespace CasperErc20

/-- A fixed 32-byte array, the payload width of both identifier types. -/
abbrev Bytes32 := { l : List Nat // l.length = 32 }

/-- Modelled from the spec: `AccountHash`, an opaque fixed-width (32-byte)
identifier for a user-controlled account, supplied by `casper_types`. -/
structure AccountHash where
  value : Bytes32
deriving DecidableEq

/-- Modelled from the spec: `ContractPackageHash`, an opaque fixed-width
(32-byte) identifier for a deployed contract package, constructible from a raw
byte array (`ContractPackageHash::new`) and exposing its raw bytes
(`.value()`), supplied by `casper_types`. -/
structure ContractPackageHash where
  value : Bytes32
deriving DecidableEq

/-- Modelled from the spec: `ContractPackageHash::new`, wrapping a raw 32-byte
array. -/
def ContractPackageHash.new (raw : Bytes32) : ContractPackageHash := ⟨raw⟩

/-- Modelled from the spec: the external storage `Key` type of `casper_types`,
"a generic external discriminated-key type with variants including (at least)
account-key and hash-key". A representative subset of its variants is kept:
the two that map to `Address` plus several others (all opaque 32-byte payloads,
and `URef` which additionally carries an access-rights byte) so that the
"any other key variant" paths are populated. -/
inductive Key where
  | Account : AccountHash → Key
  | Hash : Bytes32 → Key
  | URef : Bytes32 → Nat → Key
  | Transfer : Bytes32 → Key
  | DeployInfo : Bytes32 → Key
  | Balance : Bytes32 → Key
  | Bid : AccountHash → Key
  | Withdraw : AccountHash → Key
  | Dictionary : Bytes32 → Key
deriving DecidableEq

/-- Modelled from the spec: the error type of the external `bytesrepr` format.
`Formatting` is the "formatting/unexpected-variant" decoding error;
`EarlyEndOfStream` is the truncated-input error. -/
inductive BytesreprError where
  | EarlyEndOfStream
  | Formatting
deriving DecidableEq

/-- Modelled from the spec: the execution environment's abort reason codes;
only `ValueNotFound` is used by `address.rs`. -/
inductive ApiError where
  | ValueNotFound
deriving DecidableEq

/-- Modelled from the spec: decoding a fixed 32-byte array from a byte stream
(`<[u8; 32]>::from_bytes`): takes the first 32 bytes and returns the rest, or
fails with `EarlyEndOfStream` when fewer than 32 bytes remain. -/
def take32 (bytes : List Nat) : Except BytesreprError (Bytes32 × List Nat) :=
  if h : 32 ≤ bytes.length then
    .ok (⟨bytes.take 32, by simp [List.length_take]; omega⟩, bytes.drop 32)
  else
    .error .EarlyEndOfStream

/-- Modelled from the spec: decoding a single byte (`u8::from_bytes`): splits
off the first byte, or fails with `EarlyEndOfStream` on empty input. -/
def take1 (bytes : List Nat) : Except BytesreprError (Nat × List Nat) :=
  match bytes with
  | [] => .error .EarlyEndOfStream
  | b :: rest => .ok (b, rest)

/-- Modelled from the spec: the external `bytesrepr` encoder for `Key`. The
encoding is tag-prefixed ("the encoded form carries a discriminant"): one tag
byte identifying the variant, followed by the payload bytes. -/
def Key.to_bytes : Key → List Nat
  | .Account account_hash => 0 :: account_hash.value.val
  | .Hash hash_addr => 1 :: hash_addr.val
  | .URef uref_addr access_rights => 2 :: (uref_addr.val ++ [access_rights])
  | .Transfer transfer_addr => 3 :: transfer_addr.val
  | .DeployInfo deploy_hash => 4 :: deploy_hash.val
  | .Balance uref_addr => 6 :: uref_addr.val
  | .Bid account_hash => 7 :: account_hash.value.val
  | .Withdraw account_hash => 8 :: account_hash.value.val
  | .Dictionary dictionary_addr => 9 :: dictionary_addr.val

/-- Modelled from the spec: the external `bytesrepr` length function for `Key`,
computed without performing the encoding: one tag byte plus the payload
length. -/
def Key.serialized_length : Key → Nat
  | .Account _ => 1 + 32
  | .Hash _ => 1 + 32
  | .URef _ _ => 1 + 33
  | .Transfer _ => 1 + 32
  | .DeployInfo _ => 1 + 32
  | .Balance _ => 1 + 32
  | .Bid _ => 1 + 32
  | .Withdraw _ => 1 + 32
  | .Dictionary _ => 1 + 32

/-- Modelled from the spec: the external `bytesrepr` decoder for `Key`: reads
the tag byte, then the variant's payload, returning the decoded key and the
unconsumed remainder; an unknown tag is a `Formatting` error and truncated
input an `EarlyEndOfStream` error. -/
def Key.from_bytes (bytes : List Nat) : Except BytesreprError (Key × List Nat) :=
  match take1 bytes with
  | .error e => .error e
  | .ok (tag, rest) =>
    match tag with
    | 0 => do
      let (account_hash, rem) ← take32 rest
      .ok (Key.Account ⟨account_hash⟩, rem)
    | 1 => do
      let (hash_addr, rem) ← take32 rest
      .ok (Key.Hash hash_addr, rem)
    | 2 => do
      let (uref_addr, rem) ← take32 rest
      let (access_rights, rem2) ← take1 rem
      .ok (Key.URef uref_addr access_rights, rem2)
    | 3 => do
      let (transfer_addr, rem) ← take32 rest
      .ok (Key.Transfer transfer_addr, rem)
    | 4 => do
      let (deploy_hash, rem) ← take32 rest
      .ok (Key.DeployInfo deploy_hash, rem)
    | 6 => do
      let (uref_addr, rem) ← take32 rest
      .ok (Key.Balance uref_addr, rem)
    | 7 => do
      let (account_hash, rem) ← take32 rest
      .ok (Key.Bid ⟨account_hash⟩, rem)
    | 8 => do
      let (account_hash, rem) ← take32 rest
      .ok (Key.Withdraw ⟨account_hash⟩, rem)
    | 9 => do
      let (dictionary_addr, rem) ← take32 rest
      .ok (Key.Dictionary dictionary_addr, rem)
    | _ => .error .Formatting

/-- From `address.rs`: an enum representing an `AccountHash` or a
`ContractPackageHash`. -/
inductive Address where
  | Account : AccountHash → Address
  | Contract : ContractPackageHash → Address
deriving DecidableEq

/-- From `address.rs`: returns the inner account hash if `self` is the
`Account` variant. -/
def Address.as_account_hash : Address → Option AccountHash
  | .Account v => some v
  | _ => none

/-- From `address.rs`: returns the inner contract hash if `self` is the
`Contract` variant. -/
def Address.as_contract_package_hash : Address → Option ContractPackageHash
  | .Contract v => some v
  | _ => none

/-- From `address.rs`: `impl From<Address> for Key`. `Account(account_hash)`
maps to `Key::Account(account_hash)` and `Contract(contract_package_hash)` to
`Key::Hash(contract_package_hash.value())`. -/
def Key.fromAddress : Address → Key
  | .Account account_hash => .Account account_hash
  | .Contract contract_package_hash => .Hash contract_package_hash.value

/-- From `address.rs`: `ToBytes for Address`, delegating to the external
encoder on `Key::from(*self)`. (The Rust signature returns a `Result`, but the
external encoder never fails on these variants, so the encoding is modelled as
total.) -/
def Address.to_bytes (a : Address) : List Nat :=
  (Key.fromAddress a).to_bytes

/-- From `address.rs`: `serialized_length`, delegating to the external length
function on `Key::from(*self)`. -/
def Address.serialized_length (a : Address) : Nat :=
  (Key.fromAddress a).serialized_length

/-- From `address.rs`: `FromBytes for Address`. Decodes a `Key` (propagating
its error with `?`), then maps `Key::Account` to `Address::Account`,
`Key::Hash` to `Address::Contract` via `ContractPackageHash::new`, and any
other key variant to `Err(bytesrepr::Error::Formatting)`. -/
def Address.from_bytes (bytes : List Nat) : Except BytesreprError (Address × List Nat) :=
  match Key.from_bytes bytes with
  | .error e => .error e
  | .ok (key, remainder) =>
    match key with
    | .Account account_hash => .ok (.Account account_hash, remainder)
    | .Hash raw_contract_package_hash =>
      .ok (.Contract (ContractPackageHash.new raw_contract_package_hash), remainder)
    | _ => .error .Formatting

/-- Modelled from the spec: comparison of two bytes (`u8`'s total order). -/
def cmpByte (a b : Nat) : Ordering :=
  if a < b then .lt else if b < a then .gt else .eq

/-- Modelled from the spec: lexicographic comparison of byte sequences, the
order Rust derives for `[u8; 32]` payloads (arrays compare element-wise, first
difference decides). -/
def cmpBytes : List Nat → List Nat → Ordering
  | [], [] => .eq
  | [], _ :: _ => .lt
  | _ :: _, [] => .gt
  | a :: xs, b :: ys =>
    match cmpByte a b with
    | .eq => cmpBytes xs ys
    | o => o

/-- Modelled from the spec: the derived total order on `AccountHash` (payload
byte order). -/
def AccountHash.cmp (x y : AccountHash) : Ordering :=
  cmpBytes x.value.val y.value.val

/-- Modelled from the spec: the derived total order on `ContractPackageHash`
(payload byte order). -/
def ContractPackageHash.cmp (x y : ContractPackageHash) : Ordering :=
  cmpBytes x.value.val y.value.val

/-- From `address.rs`: the `#[derive(PartialOrd, Ord)]` order on `Address`:
the variant tag is compared first in declaration order (`Account` before
`Contract`), and two values of the same variant compare by their payloads. -/
def Address.cmp : Address → Address → Ordering
  | .Account x, .Account y => AccountHash.cmp x y
  | .Account _, .Contract _ => .lt
  | .Contract _, .Account _ => .gt
  | .Contract x, .Contract y => ContractPackageHash.cmp x y

/-- A lowercase hexadecimal digit character. -/
def hexDigit (n : Nat) : Char :=
  if n < 10 then Char.ofNat (48 + n) else Char.ofNat (87 + n)

/-- Render one byte as two lowercase hex characters. -/
def byteToHex (b : Nat) : List Char :=
  [hexDigit (b / 16 % 16), hexDigit (b % 16)]

/-- Render a byte sequence as its lowercase base-16 string. -/
def bytesToHex (l : List Nat) : String :=
  String.mk (l.flatMap byteToHex)

/-- Modelled from the spec: `AccountHash`'s own canonical human-readable string
form (the external type's `Display`, a base-16 rendering of the payload). -/
def AccountHash.to_string (h : AccountHash) : String :=
  bytesToHex h.value.val

/-- Modelled from the spec: `ContractPackageHash`'s own canonical
human-readable string form (the external type's `Display`, a base-16 rendering
of the payload). -/
def ContractPackageHash.to_string (p : ContractPackageHash) : String :=
  bytesToHex p.value.val

/-- From `address.rs`: `ToString for Address`. If `as_account_hash()` is
present, render its payload; else if `as_contract_package_hash()` is present,
render that payload; else `runtime::revert(ApiError::ValueNotFound)`. The
revert (an execution-context abort that never returns) is modelled as the
`error` result. -/
def Address.to_string (a : Address) : Except ApiError String :=
  match a.as_account_hash with
  | some v => .ok (AccountHash.to_string v)
  | none =>
    match a.as_contract_package_hash with
    | some v => .ok (ContractPackageHash.to_string v)
    | none => .error ApiError.ValueNotFound

/-- The all-zero 32-byte array, a concrete test payload. -/
def zero32 : Bytes32 := ⟨List.replicate 32 0, by decide⟩

/-- Thirty-one zero bytes followed by a one, a concrete payload that compares
above `zero32` in byte order. -/
def one32 : Bytes32 := ⟨List.replicate 31 0 ++ [1], by decide⟩

/-- A concrete account hash over the all-zero payload. -/
def zeroAccountHash : AccountHash := ⟨zero32⟩

/-- A concrete contract package hash over the all-zero payload. -/
def zeroPackageHash : ContractPackageHash := ⟨zero32⟩

/-- Claim C3: for every `Address` value `a`, `serialized_length(a)` equals the
length in bytes of the sequence returned by `to_bytes(a)`. -/
theorem address_serialized_length_agrees (a : Address) :
    Address.serialized_length a = (Address.to_bytes a).length := by
  cases a with
  | Account account_hash =>
    simp [Address.serialized_length, Address.to_bytes, Key.fromAddress,
      Key.serialized_length, Key.to_bytes, account_hash.value.property]
  | Contract contract_package_hash =>
    simp [Address.serialized_length, Address.to_bytes, Key.fromAddress,
      Key.serialized_length, Key.to_bytes, contract_package_hash.value.property]

/-- Claim C4: the conversion from `Address` to the external storage key is
total (a Lean function on `Address`, no failure path) and maps
`Address.Account x` to the account-key variant wrapping `x`, and
`Address.Contract y` to the hash-key variant wrapping `y`'s raw underlying
bytes. -/
theorem key_fromAddress_variant_preservation :
    (∀ x : AccountHash, Key.fromAddress (Address.Account x) = Key.Account x) ∧
    (∀ y : ContractPackageHash, Key.fromAddress (Address.Contract y) = Key.Hash y.value) :=
  ⟨fun _ => rfl, fun _ => rfl⟩

/-- Claim C5: the conversion from `Address` to the external storage key is
injective: two addresses mapping to the same key are equal. -/
theorem key_fromAddress_injective (a1 a2 : Address)
    (h : Key.fromAddress a1 = Key.fromAddress a2) : a1 = a2 := by
  cases a1 with
  | Account x =>
    cases a2 with
    | Account y => simp_all [Key.fromAddress]
    | Contract y => simp_all [Key.fromAddress]
  | Contract x =>
    cases a2 with
    | Account y => simp_all [Key.fromAddress]
    | Contract y => cases x; cases y; simp_all [Key.fromAddress]

/-- Witness for C5: the injectivity theorem applied at a concrete pair of
addresses whose key images coincide. -/
theorem key_fromAddress_injective_witness :
    Address.Contract zeroPackageHash = Address.Contract zeroPackageHash :=
  key_fromAddress_injective (Address.Contract zeroPackageHash)
    (Address.Contract zeroPackageHash) rfl

/-- Claim C7: for every `Address` value `a`, exactly one of
`as_account_hash a` and `as_contract_package_hash a` is present, and the
present one holds exactly the payload the value was constructed with. -/
theorem address_accessor_exclusivity (a : Address) :
    (∀ h, Address.as_account_hash a = some h ↔ a = Address.Account h) ∧
    (∀ p, Address.as_contract_package_hash a = some p ↔ a = Address.Contract p) ∧
    ((Address.as_account_hash a).isSome = true ↔
      (Address.as_contract_package_hash a).isSome = false) := by
  cases a <;> simp [Address.as_account_hash, Address.as_contract_package_hash]

/-- Witness for C7: the accessor theorem applied at a concrete account
address. -/
theorem address_accessor_exclusivity_witness :
    Address.as_account_hash (Address.Account zeroAccountHash) = some zeroAccountHash :=
  ((address_accessor_exclusivity (Address.Account zeroAccountHash)).1 zeroAccountHash).mpr rfl

/-- Claim C9: for every `Address` value, string rendering succeeds and returns
the active variant's payload rendered with that payload type's own canonical
string form; the revert branch (`ApiError.ValueNotFound`) is unreachable. -/
theorem address_to_string_total (a : Address) :
    (∀ h, a = Address.Account h →
      Address.to_string a = .ok (AccountHash.to_string h)) ∧
    (∀ p, a = Address.Contract p →
      Address.to_string a = .ok (ContractPackageHash.to_string p)) ∧
    Address.to_string a ≠ .error ApiError.ValueNotFound := by
  cases a <;>
    simp [Address.to_string, Address.as_account_hash, Address.as_contract_package_hash]

/-- Witness for C9: the rendering theorem applied at a concrete account
address. -/
theorem address_to_string_total_witness :
    Address.to_string (Address.Account zeroAccountHash) =
      .ok (AccountHash.to_string zeroAccountHash) :=
  (address_to_string_total (Address.Account zeroAccountHash)).1 zeroAccountHash rfl

/-- Decoding a fixed 32-byte array from a stream that starts with exactly 32
bytes consumes them and leaves the rest untouched. -/
theorem take32_append (l s : List Nat) (h : l.length = 32) :
    take32 (l ++ s) = .ok (⟨l, h⟩, s) := by
  unfold take32
  have hlen : 32 ≤ (l ++ s).length := by simp [List.length_append]; omega
  rw [dif_pos hlen]
  have ht : (l ++ s).take 32 = l := by rw [← h]; exact List.take_left l s
  have hd : (l ++ s).drop 32 = s := by rw [← h]; exact List.drop_left l s
  simp [ht, hd]

/-- Shared helper: decoding the encoding of an address followed by any suffix
succeeds, returns the address, and leaves the suffix as the remainder. -/
theorem address_from_bytes_to_bytes_append (a : Address) (s : List Nat) :
    Address.from_bytes (Address.to_bytes a ++ s) = .ok (a, s) := by
  cases a with
  | Account account_hash =>
    have hb : Address.to_bytes (Address.Account account_hash) ++ s
        = 0 :: (account_hash.value.val ++ s) := by
      simp [Address.to_bytes, Key.fromAddress, Key.to_bytes]
    rw [hb]
    simp [Address.from_bytes, Key.from_bytes, take1, Except.bind, bind,
      take32_append account_hash.value.val s account_hash.value.property]
  | Contract contract_package_hash =>
    have hb : Address.to_bytes (Address.Contract contract_package_hash) ++ s
        = 1 :: (contract_package_hash.value.val ++ s) := by
      simp [Address.to_bytes, Key.fromAddress, Key.to_bytes]
    rw [hb]
    simp [Address.from_bytes, Key.from_bytes, take1, Except.bind, bind,
      ContractPackageHash.new,
      take32_append contract_package_hash.value.val s
        contract_package_hash.value.property]

/-- Claim C1: for every `Address` value `a`, decoding the bytes produced by
encoding it round-trips: `from_bytes (to_bytes a)` succeeds and returns
exactly `(a, [])`. -/
theorem address_roundtrip (a : Address) :
    Address.from_bytes (Address.to_bytes a) = .ok (a, []) := by
  simpa using address_from_bytes_to_bytes_append a []

/-- Claim C10: decoding consumes exactly the encoded prefix and returns the
rest untouched: `from_bytes (to_bytes a ++ s)` succeeds and returns
`(a, s)`. -/
theorem address_from_bytes_consumes_prefix (a : Address) (s : List Nat) :
    Address.from_bytes (Address.to_bytes a ++ s) = .ok (a, s) :=
  address_from_bytes_to_bytes_append a s

/-- Claim C2: for every byte sequence the external key decoder accepts,
`Address.from_bytes` succeeds with the `Account` variant when the decoded key
is an account-key, succeeds with the `Contract` variant wrapping the raw hash
bytes when it is a hash-key, and fails with the formatting/unexpected-variant
error on any other key variant. -/
theorem address_from_bytes_partial_inverse (bytes : List Nat) (key : Key)
    (rem : List Nat) (h : Key.from_bytes bytes = .ok (key, rem)) :
    Address.from_bytes bytes =
      match key with
      | .Account account_hash => .ok (Address.Account account_hash, rem)
      | .Hash raw => .ok (Address.Contract (ContractPackageHash.new raw), rem)
      | _ => .error .Formatting := by
  cases key <;> simp [Address.from_bytes, h]

/-- Witness for C2: the partial-inverse theorem applied at a concrete encoded
URef key (tag 2), exercising the unexpected-variant branch. -/
theorem address_from_bytes_partial_inverse_witness :
    Address.from_bytes (2 :: List.replicate 33 0) = .error .Formatting :=
  address_from_bytes_partial_inverse (2 :: List.replicate 33 0)
    (Key.URef ⟨List.replicate 32 0, by decide⟩ 0) [] (by decide)

/-- Claim C8: for every byte sequence the external key decoder rejects,
`Address.from_bytes` fails and returns exactly the error value the key
decoder produced, unchanged. -/
theorem address_from_bytes_propagates_error (bytes : List Nat)
    (e : BytesreprError) (h : Key.from_bytes bytes = .error e) :
    Address.from_bytes bytes = .error e := by
  unfold Address.from_bytes
  rw [h]

/-- Witness for C8: the error-propagation theorem applied at the empty input,
which the key decoder rejects with `EarlyEndOfStream`. -/
theorem address_from_bytes_propagates_error_witness :
    Address.from_bytes [] = .error .EarlyEndOfStream :=
  address_from_bytes_propagates_error [] .EarlyEndOfStream (by decide)

/-- Byte comparison yields `eq` exactly on equal bytes. -/
theorem cmpByte_eq_iff (a b : Nat) : cmpByte a b = .eq ↔ a = b := by
  unfold cmpByte
  split_ifs <;> simp <;> omega

/-- Byte comparison yields `lt` exactly when the first byte is smaller. -/
theorem cmpByte_lt_iff (a b : Nat) : cmpByte a b = .lt ↔ a < b := by
  unfold cmpByte
  split_ifs <;> simp <;> omega

/-- Byte comparison yields `gt` exactly when the second byte is smaller. -/
theorem cmpByte_gt_iff (a b : Nat) : cmpByte a b = .gt ↔ b < a := by
  unfold cmpByte
  split_ifs <;> simp <;> omega

/-- Byte comparison is antisymmetric under swapping its arguments. -/
theorem cmpByte_swap (a b : Nat) : cmpByte a b = (cmpByte b a).swap := by
  unfold cmpByte
  split_ifs
  all_goals first | rfl | omega

/-- Lexicographic byte-sequence comparison yields `eq` exactly on equal
sequences. -/
theorem cmpBytes_eq_iff : ∀ (x y : List Nat), cmpBytes x y = .eq ↔ x = y
  | [], [] => by simp [cmpBytes]
  | [], _ :: _ => by simp [cmpBytes]
  | _ :: _, [] => by simp [cmpBytes]
  | a :: xs, b :: ys => by
    simp only [cmpBytes]
    cases hab : cmpByte a b with
    | eq =>
      have hab' : a = b := (cmpByte_eq_iff a b).mp hab
      simp [hab', cmpBytes_eq_iff xs ys]
    | lt =>
      have hab' : a < b := (cmpByte_lt_iff a b).mp hab
      simp only [reduceCtorEq, false_iff, List.cons.injEq, not_and]
      intro h
      omega
    | gt =>
      have hab' : b < a := (cmpByte_gt_iff a b).mp hab
      simp only [reduceCtorEq, false_iff, List.cons.injEq, not_and]
      intro h
      omega

/-- Lexicographic byte-sequence comparison is antisymmetric under swapping its
arguments. -/
theorem cmpBytes_swap : ∀ (x y : List Nat), cmpBytes x y = (cmpBytes y x).swap
  | [], [] => rfl
  | [], _ :: _ => rfl
  | _ :: _, [] => rfl
  | a :: xs, b :: ys => by
    simp only [cmpBytes]
    rw [cmpByte_swap a b]
    cases cmpByte b a <;> simp [Ordering.swap, cmpBytes_swap xs ys]

/-- Lexicographic byte-sequence comparison is transitive in its strict `lt`
outcome. -/
theorem cmpBytes_lt_trans :
    ∀ (x y z : List Nat),
      cmpBytes x y = .lt → cmpBytes y z = .lt → cmpBytes x z = .lt
  | [], [], _, h1, _ => by simp [cmpBytes] at h1
  | [], _ :: _, [], _, h2 => by simp [cmpBytes] at h2
  | [], _ :: _, _ :: _, _, _ => by simp [cmpBytes]
  | _ :: _, [], _, h1, _ => by simp [cmpBytes] at h1
  | _ :: _, _ :: _, [], _, h2 => by simp [cmpBytes] at h2
  | a :: xs, b :: ys, c :: zs, h1, h2 => by
    simp only [cmpBytes] at h1 h2 ⊢
    cases hab : cmpByte a b with
    | lt =>
      have hab' : a < b := (cmpByte_lt_iff a b).mp hab
      cases hbc : cmpByte b c with
      | lt =>
        have hbc' : b < c := (cmpByte_lt_iff b c).mp hbc
        simp [(cmpByte_lt_iff a c).mpr (by omega)]
      | eq =>
        have hbc' : b = c := (cmpByte_eq_iff b c).mp hbc
        simp [(cmpByte_lt_iff a c).mpr (by omega)]
      | gt => simp [hbc] at h2
    | eq =>
      have hab' : a = b := (cmpByte_eq_iff a b).mp hab
      simp only [hab] at h1
      cases hbc : cmpByte b c with
      | lt =>
        have hbc' : b < c := (cmpByte_lt_iff b c).mp hbc
        simp [(cmpByte_lt_iff a c).mpr (by omega)]
      | eq =>
        have hbc' : b = c := (cmpByte_eq_iff b c).mp hbc
        simp only [hbc] at h2
        simp only [(cmpByte_eq_iff a c).mpr (by omega)]
        exact cmpBytes_lt_trans xs ys zs h1 h2
      | gt => simp [hbc] at h2
    | gt => simp [hab] at h1

/-- `AccountHash` comparison yields `eq` exactly on equal hashes. -/
theorem accountHash_cmp_eq_iff (x y : AccountHash) :
    AccountHash.cmp x y = .eq ↔ x = y := by
  unfold AccountHash.cmp
  rw [cmpBytes_eq_iff]
  cases x with
  | mk xv =>
    cases y with
    | mk yv =>
      cases xv
      cases yv
      simp

/-- `ContractPackageHash` comparison yields `eq` exactly on equal hashes. -/
theorem contractPackageHash_cmp_eq_iff (x y : ContractPackageHash) :
    ContractPackageHash.cmp x y = .eq ↔ x = y := by
  unfold ContractPackageHash.cmp
  rw [cmpBytes_eq_iff]
  cases x with
  | mk xv =>
    cases y with
    | mk yv =>
      cases xv
      cases yv
      simp

/-- Claim C6: the derived ordering on `Address` is a total order (comparison
agrees with equality, is antisymmetric under swap, and is transitive), compares
the variant tag first with every `Account` value before every `Contract`
value, and compares same-variant values by their payloads' byte order. -/
theorem address_ordering (a b c : Address) :
    (Address.cmp a b = .eq ↔ a = b) ∧
    (Address.cmp a b = (Address.cmp b a).swap) ∧
    (Address.cmp a b = .lt → Address.cmp b c = .lt → Address.cmp a c = .lt) ∧
    (∀ x y, Address.cmp (Address.Account x) (Address.Contract y) = .lt) ∧
    (∀ x y, Address.cmp (Address.Account x) (Address.Account y) =
      cmpBytes x.value.val y.value.val) ∧
    (∀ x y, Address.cmp (Address.Contract x) (Address.Contract y) =
      cmpBytes x.value.val y.value.val) := by
  refine ⟨?_, ?_, ?_, fun x y => rfl, fun x y => rfl, fun x y => rfl⟩
  · cases a <;> cases b <;>
      simp [Address.cmp, accountHash_cmp_eq_iff, contractPackageHash_cmp_eq_iff]
  · cases a <;> cases b <;>
      first
        | rfl
        | exact cmpBytes_swap _ _
  · cases a <;> cases b <;> cases c <;>
      simp only [Address.cmp, AccountHash.cmp, ContractPackageHash.cmp] <;>
      first
        | (intro h1 h2; exact cmpBytes_lt_trans _ _ _ h1 h2)
        | simp

/-- Witness for C6: the ordering theorem's transitivity component applied at a
concrete strictly increasing triple of addresses. -/
theorem address_ordering_witness :
    Address.cmp (Address.Account zeroAccountHash)
      (Address.Contract ⟨one32⟩) = .lt :=
  (address_ordering (Address.Account zeroAccountHash)
      (Address.Contract zeroPackageHash) (Address.Contract ⟨one32⟩)).2.2.1
    (by decide) (by decide)

end CasperErc20
